import Mathlib

/-!
# ScriptureScholar — verification of the dual-backend persistence layer

Shallow embedding of the persistence façade (`StudyService`), the guest
trial tracker (`GuestTrialService`), the admin aggregation scan
(`AdminService.getAllStudies`), the generation flow (`handleAnalyze`) and
the AI client's response-cleaning logic (`gemini.ts`), translated from the
TypeScript sources (`App.tsx`, `types.ts`, `gemini.ts`, `firebase.ts`).

Modelling conventions:
* Browser `localStorage` is modelled as a record of the three keys the app
  uses (`ss_studies`, `ss_guest_trial_used`, `ss_guest_trial_study_id`);
  the `JSON.parse`/`JSON.stringify` round trip through the string value of
  `ss_studies` is taken as faithful and not modelled separately.
* Firestore is modelled per-user: `users/{uid}/history` is a list of
  documents in creation order.  Document ids assigned by `addDoc` and the
  `serverTimestamp()` value are supplied as explicit parameters
  (nondeterminism of the platform made explicit).
* `isFirebaseConfigured && db` is a single boolean `cfg` (`firebase.ts`
  sets `db` to a Firestore handle exactly when `isFirebaseConfigured`).
* Operations are modelled in their normal, fault-free semantics; remote
  I/O failure injection appears only where a claim is about failure
  behaviour (the admin aggregation scan, whose sub-queries are modelled as
  `Except`-valued).
* JavaScript numbers that hold integral millisecond timestamps are
  modelled as `Int`.
-/

namespace ScriptureScholar

/-! ## Data model (`types.ts`) -/

/-- `StudyContext` from `types.ts`. -/
structure StudyContext where
  author : String
  audience : String
  setting : String
  purpose : String
deriving DecidableEq

/-- The `language` union `'Greek' | 'Hebrew' | 'Aramaic'` of `LanguageInsight`. -/
inductive OriginalLanguage
  | greek
  | hebrew
  | aramaic
deriving DecidableEq

/-- `LanguageInsight` from `types.ts`; `strongs` is optional. -/
structure LanguageInsight where
  term : String
  language : OriginalLanguage
  transliteration : String
  strongs : Option String
  meaning : String
  whyItMatters : String
deriving DecidableEq

/-- `CrossReference` from `types.ts`. -/
structure CrossReference where
  reference : String
  connection : String
deriving DecidableEq

/-- `StudyAnalysis` from `types.ts`. -/
structure StudyAnalysis where
  reference : String
  translation : String
  scriptureText : String
  summary : String
  context : StudyContext
  keyThemes : List String
  languageInsights : List LanguageInsight
  crossReferences : List CrossReference
  keyLessons : List String
  application : List String
  prayer : Option String
deriving DecidableEq

/-- The inline `modelMetadata` record type of `SavedStudy`. -/
structure ModelMetadata where
  name : String
  version : String
deriving DecidableEq

/-- `SavedStudy` from `types.ts`.  `id` is optional (assigned by the
backend on create); `createdAt` is a JS number of milliseconds. -/
structure SavedStudy where
  id : Option String
  userId : String
  reference : String
  translation : String
  createdAt : Int
  modelMetadata : ModelMetadata
  analysis : StudyAnalysis
  userNotes : String
  tags : List String
deriving DecidableEq

/-- `Partial<SavedStudy>` as used by `StudyService.update`: every field
optional; an absent field leaves the stored record's field unchanged,
a present field replaces it (JS object spread `{ ...old, ...data }`). -/
structure StudyPatch where
  id : Option String := none
  userId : Option String := none
  reference : Option String := none
  translation : Option String := none
  createdAt : Option Int := none
  modelMetadata : Option ModelMetadata := none
  analysis : Option StudyAnalysis := none
  userNotes : Option String := none
  tags : Option (List String) := none
deriving DecidableEq

/-- JS object spread `{ ...s, ...p }` merging a `Partial<SavedStudy>`
into a `SavedStudy` (present patch fields win). -/
def applyPatch (s : SavedStudy) (p : StudyPatch) : SavedStudy :=
  { id := match p.id with | some v => some v | none => s.id
    userId := p.userId.getD s.userId
    reference := p.reference.getD s.reference
    translation := p.translation.getD s.translation
    createdAt := p.createdAt.getD s.createdAt
    modelMetadata := p.modelMetadata.getD s.modelMetadata
    analysis := p.analysis.getD s.analysis
    userNotes := p.userNotes.getD s.userNotes
    tags := p.tags.getD s.tags }

/-! ## Storage state -/

/-- The browser's persistent key-value store, restricted to the three keys
the app uses.  `ssStudies` is the parsed value of the serialized list under
`'ss_studies'` (missing key ≡ `'[]'` ≡ empty list); the two guest-trial
keys hold raw string values (`none` = key absent). -/
structure LocalStore where
  ssStudies : List SavedStudy
  guestTrialUsed : Option String
  guestTrialStudyId : Option String
deriving DecidableEq

/-- A document of the Firestore sub-collection `users/{uid}/history`.
`id` is the Firestore document id; `dataId` is the `id` *field* stored in
the document data when the saved study carried one (`addDoc` spreads the
whole study, including a present `id` field, into the data).  `createdAt`
is written by `save` as `serverTimestamp()`, kept here as whole seconds
(`createdAtSeconds`); real server timestamps are positive, so the
truthiness test `data.createdAt?.seconds` in the read paths is taken as
passing (theorems about remote reads carry `0 < createdAtSeconds`). -/
structure HistoryDoc where
  id : String
  dataId : Option String
  userId : String
  reference : String
  translation : String
  createdAtSeconds : Int
  modelMetadata : ModelMetadata
  analysis : StudyAnalysis
  userNotes : String
  tags : List String
deriving DecidableEq

/-- The remote document database: for each user id, the list of documents
of `users/{uid}/history` in creation order. -/
structure RemoteStore where
  history : String → List HistoryDoc

/-- Replace one user's `history` sub-collection. -/
def RemoteStore.setHistory (r : RemoteStore) (uid : String) (docs : List HistoryDoc) :
    RemoteStore :=
  ⟨fun u => if u = uid then docs else r.history u⟩

/-- The whole storage state visible to the persistence layer. -/
structure World where
  localStore : LocalStore
  remoteStore : RemoteStore

/-- JS `String.prototype.startsWith`, on the character sequences. -/
def jsStartsWith (s p : String) : Bool :=
  p.data.isPrefixOf s.data

/-- Reading a history document back into a `SavedStudy`
(`{ id: docSnap.id, ...data, createdAt: data.createdAt?.seconds ?
data.createdAt.seconds * 1000 : data.createdAt }` in `getById`): the
spread puts the data *after* the `id` key, so a stored `id` field (from a
study saved with a preexisting id) overwrites the document id; `createdAt`
is written after the spread, converting the server timestamp to
milliseconds. -/
def docToSavedStudy (d : HistoryDoc) : SavedStudy :=
  { id := some (d.dataId.getD d.id)
    userId := d.userId
    reference := d.reference
    translation := d.translation
    createdAt := d.createdAtSeconds * 1000
    modelMetadata := d.modelMetadata
    analysis := d.analysis
    userNotes := d.userNotes
    tags := d.tags }

/-! ## `StudyService` (App.tsx lines 99–208) -/

namespace StudyService

/-- `StudyService.save`.  Remote branch (`isFirebaseConfigured && db &&
userId !== 'guest'`): `addDoc` under `users/{uid}/history` of the spread
study with `createdAt` replaced by `serverTimestamp()`; returns the
Firestore-assigned id (`freshDocId`).  Local branch: mint
`` `local-${Date.now()}` ``, push `{ ...study, id }` onto the stored list,
return that id. -/
def save (cfg : Bool) (uid : String) (study : SavedStudy)
    (freshDocId : String) (serverSeconds : Int) (nowMillis : Int)
    (w : World) : World × String :=
  if cfg && uid != "guest" then
    let d : HistoryDoc :=
      { id := freshDocId
        dataId := study.id
        userId := study.userId
        reference := study.reference
        translation := study.translation
        createdAtSeconds := serverSeconds
        modelMetadata := study.modelMetadata
        analysis := study.analysis
        userNotes := study.userNotes
        tags := study.tags }
    ({ w with remoteStore :=
        w.remoteStore.setHistory uid (w.remoteStore.history uid ++ [d]) },
      freshDocId)
  else
    let id := "local-" ++ toString nowMillis
    ({ w with localStore :=
        { w.localStore with
          ssStudies := w.localStore.ssStudies ++ [{ study with id := some id }] } },
      id)

/-- `StudyService.getById`.  Remote branch requires the id not to carry
the `local-` prefix and the user not to be the guest sentinel; a remote
miss (document does not exist) falls through to the local scan
`localStudies.find(s => s.id === id) || null`.  Absence is the value
`none`, never an error. -/
def getById (cfg : Bool) (uid id : String) (w : World) : Option SavedStudy :=
  let localResult := w.localStore.ssStudies.find? (fun s => s.id == some id)
  if cfg && !(jsStartsWith id "local-") && uid != "guest" then
    match (w.remoteStore.history uid).find? (fun d => d.id == id) with
    | some d => some (docToSavedStudy d)
    | none => localResult
  else
    localResult

/-- Replace the first stored study whose `id` matches by the merged record
(`findIndex` + in-place replacement in `StudyService.update`). -/
def updateFirst (p : StudyPatch) (id : String) : List SavedStudy → List SavedStudy
  | [] => []
  | s :: rest =>
    if s.id == some id then applyPatch s p :: rest else s :: updateFirst p id rest

/-- Merging a `Partial<SavedStudy>` into a stored history document
(`updateDoc`).  A present `id` field overwrites the stored `id` data
field.  The app only ever patches `userNotes`; patching `createdAt` (which
would overwrite the server timestamp with a client number) is not
exercised by the app and is not modelled. -/
def applyPatchDoc (d : HistoryDoc) (p : StudyPatch) : HistoryDoc :=
  { d with
    dataId := match p.id with | some v => some v | none => d.dataId
    userId := p.userId.getD d.userId
    reference := p.reference.getD d.reference
    translation := p.translation.getD d.translation
    modelMetadata := p.modelMetadata.getD d.modelMetadata
    analysis := p.analysis.getD d.analysis
    userNotes := p.userNotes.getD d.userNotes
    tags := p.tags.getD d.tags }

/-- `StudyService.update`.  Remote branch: `updateDoc` on the addressed
document (fault-free semantics; a missing remote document is left
unchanged here, the claims only concern the local branch).  Local branch:
`findIndex`; if a record matches, replace it in place and write the list
back; if none matches (`index === -1`), nothing is written. -/
def update (cfg : Bool) (uid id : String) (p : StudyPatch) (w : World) : World :=
  if cfg && !(jsStartsWith id "local-") && uid != "guest" then
    let docs := (w.remoteStore.history uid).map
      (fun d => if d.id == id then applyPatchDoc d p else d)
    { w with remoteStore := w.remoteStore.setHistory uid docs }
  else
    if (w.localStore.ssStudies.find? (fun s => s.id == some id)).isSome then
      { w with localStore :=
          { w.localStore with
            ssStudies := updateFirst p id w.localStore.ssStudies } }
    else
      w

/-- `StudyService.remove`.  Remote branch: `deleteDoc` of the addressed
document (document ids are unique within a collection, so this is the
filter keeping every other id).  Local branch:
`localStudies.filter(s => s.id !== id)` written back. -/
def remove (cfg : Bool) (uid id : String) (w : World) : World :=
  if cfg && !(jsStartsWith id "local-") && uid != "guest" then
    let docs := (w.remoteStore.history uid).filter (fun d => !(d.id == id))
    { w with remoteStore := w.remoteStore.setHistory uid docs }
  else
    { w with localStore :=
        { w.localStore with
          ssStudies := w.localStore.ssStudies.filter (fun s => !(s.id == some id)) } }

/-- The order in which the remote query
`query(..., orderBy('createdAt', 'desc'))` returns the documents:
descending by the server timestamp, ties broken by document id ascending
(Firestore's documented tie-break). -/
def firestoreDescLe (a b : HistoryDoc) : Prop :=
  b.createdAtSeconds < a.createdAtSeconds ∨
    (b.createdAtSeconds = a.createdAtSeconds ∧ (a.id < b.id ∨ a.id = b.id))

instance : DecidableRel firestoreDescLe := fun a b => by
  unfold firestoreDescLe; infer_instance

/-- The comparator `(a, b) => b.createdAt - a.createdAt` of the local
branch of `enforceLimit`: larger `createdAt` first, ties kept in their
original order (JS `Array.prototype.sort` is stable). -/
def localDescLe (a b : SavedStudy) : Prop :=
  b.createdAt ≤ a.createdAt

instance : DecidableRel localDescLe := fun a b => by
  unfold localDescLe; infer_instance

/-- The local list sorted by `createdAt` descending (stable). -/
def sortLocalDesc (l : List SavedStudy) : List SavedStudy :=
  l.insertionSort localDescLe

/-- The remote query result ordered by `createdAt` descending. -/
def firestoreOrder (l : List HistoryDoc) : List HistoryDoc :=
  l.insertionSort firestoreDescLe

/-- `StudyService.enforceLimit`.  Remote branch: enumerate the user's
history newest-first; if more than `limit` documents, delete every
document of `docs.slice(limit)`.  Local branch: if the stored list is
longer than `limit`, sort it by `createdAt` descending and keep the first
`limit` entries. -/
def enforceLimit (cfg : Bool) (uid : String) (limit : Nat) (w : World) : World :=
  if cfg && uid != "guest" then
    let docs := firestoreOrder (w.remoteStore.history uid)
    if docs.length > limit then
      let toDelete := docs.drop limit
      let kept := (w.remoteStore.history uid).filter
        (fun d => !(toDelete.any (fun t => t.id == d.id)))
      { w with remoteStore := w.remoteStore.setHistory uid kept }
    else
      w
  else
    let localStudies := w.localStore.ssStudies
    if localStudies.length > limit then
      { w with localStore :=
          { w.localStore with ssStudies := (sortLocalDesc localStudies).take limit } }
    else
      w

end StudyService

/-! ## `GuestTrialService` (App.tsx lines 214–227) -/

namespace GuestTrialService

/-- `localStorage.getItem('ss_guest_trial_used') === 'true'`. -/
def hasUsedTrial (ls : LocalStore) : Bool :=
  ls.guestTrialUsed == some "true"

/-- `localStorage.setItem('ss_guest_trial_used', 'true')`. -/
def markTrialUsed (ls : LocalStore) : LocalStore :=
  { ls with guestTrialUsed := some "true" }

/-- `localStorage.getItem('ss_guest_trial_study_id')`. -/
def getTrialStudyId (ls : LocalStore) : Option String :=
  ls.guestTrialStudyId

/-- `localStorage.setItem('ss_guest_trial_study_id', id)`. -/
def setTrialStudyId (id : String) (ls : LocalStore) : LocalStore :=
  { ls with guestTrialStudyId := some id }

end GuestTrialService

/-! ## `AdminService.getAllStudies` (App.tsx lines 43–96)

The scan's two kinds of Firestore reads are modelled as `Except`-valued
inputs so that the failure behaviour the claim is about can be stated:
`users` is the result of `getDocs(collection(db, 'users'))`, and
`history uid` the result of the per-user ordered sub-query.  The whole
body sits inside a single `try { ... } catch { return [] }`. -/

/-- A document of the top-level `users` collection as the admin scan reads
it (`email`/`displayName` may be missing, defaulted with `||`). -/
structure UserProfileDoc where
  id : String
  email : Option String
  displayName : Option String
deriving DecidableEq

/-- One row of the admin view: a study joined with the owner's
denormalized display fields. -/
structure AdminRecordView where
  study : SavedStudy
  userEmail : String
  userName : String
deriving DecidableEq

/-- Reading a history document inside the admin scan:
`{ id: studyDoc.id, ...data, userId: userDoc.id, createdAt: ... }` —
`userId` and `createdAt` are written after the spread (so the owner's id
and the converted timestamp win); `id` is written before it (so a stored
`id` data field would win). -/
def adminDocToSavedStudy (ownerId : String) (d : HistoryDoc) : SavedStudy :=
  { id := some (d.dataId.getD d.id)
    userId := ownerId
    reference := d.reference
    translation := d.translation
    createdAt := d.createdAtSeconds * 1000
    modelMetadata := d.modelMetadata
    analysis := d.analysis
    userNotes := d.userNotes
    tags := d.tags }

/-- The comparator `(a, b) => b.study.createdAt - a.study.createdAt` of
the final `allStudies.sort`. -/
def adminDescLe (a b : AdminRecordView) : Prop :=
  b.study.createdAt ≤ a.study.createdAt

instance : DecidableRel adminDescLe := fun a b => by
  unfold adminDescLe; infer_instance

namespace AdminService

/-- The sequential `for (const userDoc of usersSnapshot.docs)` loop: each
iteration awaits that user's sub-query; an exception anywhere escapes the
loop (there is no per-user handler). -/
def getAllStudiesLoop (history : String → Except Unit (List HistoryDoc)) :
    List UserProfileDoc → Except Unit (List AdminRecordView)
  | [] => Except.ok []
  | u :: rest => do
    let docs ← history u.id
    let recs := docs.map (fun d =>
      { study := adminDocToSavedStudy u.id d
        userEmail := u.email.getD "Unknown"
        userName := u.displayName.getD "Anonymous"
        : AdminRecordView })
    let tail ← getAllStudiesLoop history rest
    return recs ++ tail

/-- `AdminService.getAllStudies`.  Returns `[]` when Firebase is not
configured; otherwise runs the fan-out inside one `try`/`catch`, returning
`[]` on any exception, and finally sorts all rows by creation time
descending. -/
def getAllStudies (cfg : Bool) (users : Except Unit (List UserProfileDoc))
    (history : String → Except Unit (List HistoryDoc)) : List AdminRecordView :=
  if !cfg then []
  else
    match (do
      let us ← users
      getAllStudiesLoop history us : Except Unit (List AdminRecordView)) with
    | Except.error _ => []
    | Except.ok l => l.insertionSort adminDescLe

end AdminService

/-! ## AI client response cleaning (`gemini.ts`, `generateStudy`)

`const cleanedText = text.replace(/```json\n?/g, '').replace(/```\n?/g,
'').trim();` followed by `JSON.parse(cleanedText)` inside a `try` whose
`catch` throws the fixed generation-failure error.  The two `replace`
calls are global left-to-right non-overlapping regex replacements; they
are modelled as structural scans over the character list.  `JSON.parse`
itself is a host builtin, modelled as an arbitrary parse function
parameter. -/

/-- The backtick character (U+0060), the fence delimiter. -/
def tick : Char := Char.ofNat 96

/-- First replacement, pattern `` ```json `` followed by an optional
newline: scan left to right; at a match, drop the seven pattern characters
and one following newline if present, and continue after them; otherwise
keep the character and continue. -/
def stripJsonFence : List Char → List Char
  | c1 :: c2 :: c3 :: c4 :: c5 :: c6 :: c7 :: rest =>
    if c1 = tick ∧ c2 = tick ∧ c3 = tick ∧ c4 = 'j' ∧ c5 = 's' ∧ c6 = 'o' ∧ c7 = 'n' then
      match rest with
      | '\n' :: rest' => stripJsonFence rest'
      | [] => []
      | c8 :: rest' => stripJsonFence (c8 :: rest')
    else
      c1 :: stripJsonFence (c2 :: c3 :: c4 :: c5 :: c6 :: c7 :: rest)
  | c :: cs => c :: stripJsonFence cs
  | [] => []

/-- Second replacement, pattern `` ``` `` followed by an optional
newline. -/
def stripCodeFence : List Char → List Char
  | c1 :: c2 :: c3 :: rest =>
    if c1 = tick ∧ c2 = tick ∧ c3 = tick then
      match rest with
      | '\n' :: rest' => stripCodeFence rest'
      | [] => []
      | c4 :: rest' => stripCodeFence (c4 :: rest')
    else
      c1 :: stripCodeFence (c2 :: c3 :: rest)
  | c :: cs => c :: stripCodeFence cs
  | [] => []

/-- The whitespace class of JS `String.prototype.trim` (restricted to the
ASCII members that can occur here: space, tab, newline, carriage return,
vertical tab, form feed). -/
def isJsWhitespace (c : Char) : Bool :=
  c = ' ' || c = '\n' || c = '\t' || c = '\r' || c = '\x0b' || c = '\x0c'

/-- JS `String.prototype.trim` on the character list: drop leading and
trailing whitespace. -/
def jsTrimChars (l : List Char) : List Char :=
  ((l.dropWhile isJsWhitespace).reverse.dropWhile isJsWhitespace).reverse

/-- `cleanedText` of `generateStudy`: the two replacements followed by
`trim()`. -/
def cleanGeminiText (l : List Char) : List Char :=
  jsTrimChars (stripCodeFence (stripJsonFence l))

/-- A response text wrapped in markdown code fences around its payload,
as language models commonly emit it. -/
def wrapInJsonFence (l : List Char) : List Char :=
  tick :: tick :: tick :: 'j' :: 's' :: 'o' :: 'n' :: '\n' :: (l ++ ['\n', tick, tick, tick])

/-- The error `generateStudy` signals to its caller. -/
inductive GenError
  | parseFailure
deriving DecidableEq

/-- `const text = response.text || "{}"`: a missing or empty (falsy)
response text defaults to `"{}"`. -/
def responseTextOrDefault (responseText : Option (List Char)) : List Char :=
  match responseText with
  | none => ['{', '}']
  | some t => if t = [] then ['{', '}'] else t

/-- The parse stage of `generateStudy`: clean, then `JSON.parse` inside
`try`; on a parse failure the `catch` turns the exception into the fixed
generation-failure error returned to the caller (`throw new Error("Could
not parse study analysis. Please try again.")`), so the caller always
receives either a parsed analysis or that error value — never an
unhandled parse exception.  `parseJson` stands for the host's
`JSON.parse` composed with the `StudyAnalysis` reading of its result. -/
def generateStudyResult (parseJson : List Char → Option StudyAnalysis)
    (responseText : Option (List Char)) : Except GenError StudyAnalysis :=
  match parseJson (cleanGeminiText (responseTextOrDefault responseText)) with
  | some a => Except.ok a
  | none => Except.error GenError.parseFailure

/-! ## The generation flow `handleAnalyze` (App.tsx lines 398–450) -/

/-- One invocation of a `GuestTrialService` operation; the two getters
read without writing. -/
inductive TrialOp
  | mark
  | setStudyId (id : String)
  | queryUsed
  | queryStudyId
deriving DecidableEq

/-- Effect of one tracker operation on the browser store. -/
def applyTrialOp (ls : LocalStore) : TrialOp → LocalStore
  | TrialOp.mark => GuestTrialService.markTrialUsed ls
  | TrialOp.setStudyId i => GuestTrialService.setTrialStudyId i ls
  | TrialOp.queryUsed => ls
  | TrialOp.queryStudyId => ls

/-- Effect of a sequence of tracker operations, first to last. -/
def applyTrialOps (ops : List TrialOp) (ls : LocalStore) : LocalStore :=
  ops.foldl applyTrialOp ls

/-- The observable outcome of one `handleAnalyze` invocation. -/
inductive AnalyzeOutcome
  | emptyReference
  | blockedSignInModal
  | generationFailed
  | navigated (studyId : String)
deriving DecidableEq

/-- `handleAnalyze` from the `Landing` component.  In source order: an
empty (trimmed) reference returns immediately; a guest who has already
used the trial is shown the sign-in modal and the handler returns *before*
`generateStudy` is called; otherwise `generateStudy reference translation`
runs (its outcome is the `genResult` parameter — the reference and
translation themselves only feed that external call), and on success the
study assembled from the
analysis is saved, a guest marks the trial used and records the trial
study id, a signed-in user gets the 10-study limit enforced, and the app
navigates to the new study. -/
def handleAnalyze (cfg : Bool) (user : Option String) (reference : String)
    (genResult : Except Unit StudyAnalysis)
    (freshDocId : String) (serverSeconds : Int) (nowMillis : Int)
    (w : World) : World × AnalyzeOutcome :=
  if jsTrimChars reference.data = [] then
    (w, AnalyzeOutcome.emptyReference)
  else if user == none && GuestTrialService.hasUsedTrial w.localStore then
    (w, AnalyzeOutcome.blockedSignInModal)
  else
    match genResult with
    | Except.error _ => (w, AnalyzeOutcome.generationFailed)
    | Except.ok analysis =>
      let uid := user.getD "guest"
      let studyData : SavedStudy :=
        { id := none
          userId := uid
          reference := analysis.reference
          translation := analysis.translation
          createdAt := nowMillis
          modelMetadata := { name := "Gemini", version := "2.0 Flash" }
          analysis := analysis
          userNotes := ""
          tags := [] }
      let saved := StudyService.save cfg uid studyData freshDocId serverSeconds nowMillis w
      let w1 := saved.1
      let id := saved.2
      let w2 :=
        if user == none then
          let ls := GuestTrialService.setTrialStudyId id
            (GuestTrialService.markTrialUsed w1.localStore)
          { w1 with localStore := ls }
        else
          w1
      let w3 :=
        if user != none then StudyService.enforceLimit cfg uid 10 w2 else w2
      (w3, AnalyzeOutcome.navigated id)

/-! ## State observations -/

/-- The list stored under `'ss_studies'` in the local backend. -/
def storedLocal (w : World) : List SavedStudy :=
  w.localStore.ssStudies

/-- The documents of `users/{uid}/history` in the remote backend. -/
def storedRemote (w : World) (uid : String) : List HistoryDoc :=
  w.remoteStore.history uid

/-- The number of stored studies for an identity, in the backend that the
configuration routes that identity's collection-level operations to. -/
def storedCount (cfg : Bool) (uid : String) (w : World) : Nat :=
  if cfg && uid != "guest" then (storedRemote w uid).length else (storedLocal w).length

/-! ## Concrete fixtures for witnesses and counterexamples -/

/-- A remote store with no documents at all. -/
def emptyRemote : RemoteStore := ⟨fun _ => []⟩

/-- A browser store with nothing written yet. -/
def emptyLocal : LocalStore := ⟨[], none, none⟩

/-- A small concrete analysis value. -/
def sampleAnalysis : StudyAnalysis :=
  { reference := "John 3:16"
    translation := "ESV"
    scriptureText := "For God so loved the world"
    summary := "sum"
    context := { author := "John", audience := "all", setting := "AD 90", purpose := "faith" }
    keyThemes := ["love"]
    languageInsights := []
    crossReferences := []
    keyLessons := ["grace"]
    application := ["trust"]
    prayer := none }

/-- A concrete saved study with the given id, owner and timestamp. -/
def mkStudy (id : Option String) (uid : String) (createdAt : Int) : SavedStudy :=
  { id := id
    userId := uid
    reference := "John 3:16"
    translation := "ESV"
    createdAt := createdAt
    modelMetadata := { name := "Gemini", version := "2.0 Flash" }
    analysis := sampleAnalysis
    userNotes := ""
    tags := [] }

/-- A world with nothing stored anywhere. -/
def emptyWorld : World := ⟨emptyLocal, emptyRemote⟩

/-- A world whose local backend stores exactly one study, with id
`local-1`. -/
def oneStudyWorld : World :=
  ⟨⟨[mkStudy (some "local-1") "guest" 1], none, none⟩, emptyRemote⟩

/-- A concrete history document owned by user `u2`. -/
def docOfU2 : HistoryDoc :=
  { id := "s2"
    dataId := none
    userId := "u2"
    reference := "John 3:16"
    translation := "ESV"
    createdAtSeconds := 100
    modelMetadata := { name := "Gemini", version := "2.0 Flash" }
    analysis := sampleAnalysis
    userNotes := ""
    tags := [] }

/-- Sub-query results in which user `u1`'s history read fails while user
`u2`'s succeeds with one study. -/
def historyU1Fails : String → Except Unit (List HistoryDoc) := fun uid =>
  if uid = "u1" then Except.error ()
  else if uid = "u2" then Except.ok [docOfU2]
  else Except.ok []

/-! ## Shared lemmas -/

theorem RemoteStore.setHistory_self (r : RemoteStore) (uid : String)
    (docs : List HistoryDoc) : (r.setHistory uid docs).history uid = docs := by
  simp [RemoteStore.setHistory]

theorem length_filter_bnot_eq (p : α → Bool) (l : List α) :
    (l.filter (fun a => !(p a))).length = l.length - l.countP p := by
  induction l with
  | nil => rfl
  | cons a l ih =>
    have hle : l.countP p ≤ l.length := by
      rw [List.countP_eq_length_filter]
      exact List.length_filter_le p l
    by_cases h : p a = true
    · simp only [List.filter_cons, List.countP_cons, h, ih]
      simp
      omega
    · simp only [List.filter_cons, List.countP_cons, h, ih]
      simp [h]
      omega

theorem beq_some_iff (o : Option String) (s : String) : (o == some s) = true ↔ o = some s :=
  beq_iff_eq

/-- A prefix test on an appended string: `('local-' ++ x).startsWith('local-')`. -/
theorem jsStartsWith_append (p x : String) : jsStartsWith (p ++ x) p = true := by
  unfold jsStartsWith
  rw [String.data_append, List.isPrefixOf_iff_prefix]
  exact List.prefix_append p.data x.data

/-! ### Trimming lemmas for `enforceLimit` -/

/-- The documents of `docs.slice(limit)` are all deleted and everything
else survives: what remains of the collection is, up to permutation, the
first `limit` documents of the newest-first enumeration (document ids
being unique in a Firestore collection). -/
theorem remote_trim_perm (D : List HistoryDoc) (N : Nat)
    (hnd : (D.map HistoryDoc.id).Nodup) :
    (D.filter
        (fun d => !(((StudyService.firestoreOrder D).drop N).any (fun t => t.id == d.id)))).Perm
      ((StudyService.firestoreOrder D).take N) := by
  set S := StudyService.firestoreOrder D with hS
  set p : HistoryDoc → Bool := fun d => !((S.drop N).any (fun t => t.id == d.id)) with hp
  have hperm : S.Perm D := List.perm_insertionSort _ D
  have hfilter : (D.filter p).Perm (S.filter p) := (hperm.filter p).symm
  have hnodS : (S.map HistoryDoc.id).Nodup := ((hperm.map HistoryDoc.id).symm).nodup hnd
  have hsplit : S = S.take N ++ S.drop N := (List.take_append_drop N S).symm
  have hdisj : (S.take N).Disjoint (S.drop N) := by
    have : ((S.take N).map HistoryDoc.id ++ (S.drop N).map HistoryDoc.id).Nodup := by
      rw [← List.map_append, ← hsplit]; exact hnodS
    intro a hat had
    exact (List.nodup_append.mp this).2.2 (List.mem_map_of_mem _ hat) (List.mem_map_of_mem _ had)
  have hdisj_id : ∀ a ∈ S.take N, ∀ b ∈ S.drop N, a.id ≠ b.id := by
    have hnd2 := (by rw [← List.map_append, ← hsplit]; exact hnodS :
      ((S.take N).map HistoryDoc.id ++ (S.drop N).map HistoryDoc.id).Nodup)
    intro a ha b hb heq
    exact (List.nodup_append.mp hnd2).2.2 (List.mem_map_of_mem _ ha)
      (heq ▸ List.mem_map_of_mem _ hb)
  have hdrop : (S.drop N).filter p = [] := by
    refine List.filter_eq_nil_iff.mpr ?_
    intro d hd
    simp only [hp, Bool.not_eq_true', Bool.not_eq_false]
    exact List.any_eq_true.mpr ⟨d, hd, beq_self_eq_true d.id⟩
  have htake : (S.take N).filter p = S.take N := by
    refine List.filter_eq_self.mpr ?_
    intro d hd
    simp only [hp, Bool.not_eq_true', Bool.not_eq_false, Bool.not_eq_true]
    refine List.any_eq_false.mpr ?_
    intro t ht h
    exact hdisj_id d hd t ht (beq_iff_eq.mp h).symm
  calc (D.filter p).Perm (S.filter p) := hfilter
    _ = (S.take N ++ S.drop N).filter p := by rw [← hsplit]
    _ = S.take N := by rw [List.filter_append, hdrop, htake, List.append_nil]

/-- Without any uniqueness assumption, the trim still leaves at most `N`
documents. -/
theorem remote_trim_length_le (D : List HistoryDoc) (N : Nat) :
    (D.filter
        (fun d => !(((StudyService.firestoreOrder D).drop N).any (fun t => t.id == d.id)))).length
      ≤ N := by
  set S := StudyService.firestoreOrder D with hS
  set p : HistoryDoc → Bool := fun d => !((S.drop N).any (fun t => t.id == d.id)) with hp
  have hperm : S.Perm D := List.perm_insertionSort _ D
  have hlen : (D.filter p).length = (S.filter p).length := ((hperm.filter p).symm).length_eq
  have hsplit : S = S.take N ++ S.drop N := (List.take_append_drop N S).symm
  have hdrop : (S.drop N).filter p = [] := by
    refine List.filter_eq_nil_iff.mpr ?_
    intro d hd
    simp only [hp, Bool.not_eq_true', Bool.not_eq_false]
    exact List.any_eq_true.mpr ⟨d, hd, beq_self_eq_true d.id⟩
  calc (D.filter p).length = (S.filter p).length := hlen
    _ = ((S.take N).filter p ++ (S.drop N).filter p).length := by
        rw [← List.filter_append, ← hsplit]
    _ = ((S.take N).filter p).length := by rw [hdrop, List.append_nil]
    _ ≤ (S.take N).length := List.length_filter_le _ _
    _ ≤ N := by simp [List.length_take]

/-- After `enforceLimit` the routed backend holds at most `limit`
records. -/
theorem enforceLimit_count_le (cfg : Bool) (uid : String) (limit : Nat) (w : World) :
    storedCount cfg uid (StudyService.enforceLimit cfg uid limit w) ≤ limit := by
  unfold StudyService.enforceLimit storedCount storedRemote storedLocal
  by_cases hroute : (cfg && uid != "guest") = true
  · simp only [hroute, if_true]
    by_cases hlen : (StudyService.firestoreOrder (w.remoteStore.history uid)).length > limit
    · simp only [hlen, if_true]
      rw [RemoteStore.setHistory_self]
      exact remote_trim_length_le _ _
    · simp only [hlen, if_false]
      have := List.length_insertionSort StudyService.firestoreDescLe (w.remoteStore.history uid)
      unfold StudyService.firestoreOrder at hlen
      omega
  · rw [Bool.not_eq_true] at hroute
    simp only [hroute, Bool.false_eq_true, if_false]
    by_cases hlen : w.localStore.ssStudies.length > limit
    · simp only [hlen, if_true]
      have h1 : (StudyService.sortLocalDesc w.localStore.ssStudies).length
          = w.localStore.ssStudies.length :=
        List.length_insertionSort _ _
      simp [List.length_take]
    · simp only [hlen, if_false]
      omega

/-- `enforceLimit` is a no-op once the routed backend is at or under the
cap. -/
theorem enforceLimit_noop (cfg : Bool) (uid : String) (limit : Nat) (w : World)
    (h : storedCount cfg uid w ≤ limit) :
    StudyService.enforceLimit cfg uid limit w = w := by
  unfold storedCount storedRemote storedLocal at h
  unfold StudyService.enforceLimit
  by_cases hroute : (cfg && uid != "guest") = true
  · simp only [hroute, if_true] at h ⊢
    have hlen : ¬ (StudyService.firestoreOrder (w.remoteStore.history uid)).length > limit := by
      have := List.length_insertionSort StudyService.firestoreDescLe (w.remoteStore.history uid)
      unfold StudyService.firestoreOrder
      omega
    simp only [hlen, if_false]
  · rw [Bool.not_eq_true] at hroute
    simp only [hroute, Bool.false_eq_true, if_false] at h ⊢
    have hlen : ¬ w.localStore.ssStudies.length > limit := by omega
    simp only [hlen, if_false]

/-- Local branch of `enforceLimit`: the surviving list is, up to
permutation, the stored list sorted by `createdAt` descending and
truncated to the cap. -/
theorem enforceLimit_local_perm (cfg : Bool) (uid : String) (N : Nat) (w : World)
    (hroute : (cfg && uid != "guest") = false) :
    (storedLocal (StudyService.enforceLimit cfg uid N w)).Perm
      ((StudyService.sortLocalDesc (storedLocal w)).take N) := by
  unfold StudyService.enforceLimit storedLocal
  simp only [hroute, Bool.false_eq_true, if_false]
  by_cases hlen : w.localStore.ssStudies.length > N
  · simp only [hlen, if_true]
    exact List.Perm.refl _
  · simp only [hlen, if_false]
    have hs : (StudyService.sortLocalDesc w.localStore.ssStudies).length
        = w.localStore.ssStudies.length := List.length_insertionSort _ _
    rw [List.take_of_length_le (by omega)]
    exact (List.perm_insertionSort _ _).symm

/-- Remote branch of `enforceLimit`: the surviving collection is, up to
permutation, the newest-first enumeration truncated to the cap (document
ids being unique). -/
theorem enforceLimit_remote_perm (cfg : Bool) (uid : String) (N : Nat) (w : World)
    (hroute : (cfg && uid != "guest") = true)
    (hnd : ((storedRemote w uid).map HistoryDoc.id).Nodup) :
    (storedRemote (StudyService.enforceLimit cfg uid N w) uid).Perm
      ((StudyService.firestoreOrder (storedRemote w uid)).take N) := by
  unfold storedRemote at hnd
  unfold StudyService.enforceLimit storedRemote
  simp only [hroute, if_true]
  by_cases hlen : (StudyService.firestoreOrder (w.remoteStore.history uid)).length > N
  · simp only [hlen, if_true]
    rw [RemoteStore.setHistory_self]
    exact remote_trim_perm _ N hnd
  · simp only [hlen, if_false]
    have hle : (StudyService.firestoreOrder (w.remoteStore.history uid)).length ≤ N := by omega
    rw [List.take_of_length_le hle]
    exact (List.perm_insertionSort _ _).symm

/-! ## Claim theorems -/

/-- **C3.** `enforceLimit` is idempotent: a second call with the same cap
immediately after a first call changes nothing (it deletes nothing
further), and, more generally, whenever the stored count for the routed
backend is already at or under the cap, `enforceLimit` leaves the world
unchanged. -/
theorem c3_enforceLimit_idempotent (cfg : Bool) (uid : String) (N : Nat) (w : World) :
    StudyService.enforceLimit cfg uid N (StudyService.enforceLimit cfg uid N w)
      = StudyService.enforceLimit cfg uid N w
    ∧ (storedCount cfg uid w ≤ N → StudyService.enforceLimit cfg uid N w = w) :=
  ⟨enforceLimit_noop cfg uid N _ (enforceLimit_count_le cfg uid N w),
    enforceLimit_noop cfg uid N w⟩

/-- Witness for C3 at a concrete input: the guest identity with an empty
store and cap 0 is at the cap, so `enforceLimit` leaves the world
unchanged. -/
theorem c3_enforceLimit_idempotent_witness :
    storedCount false "guest" emptyWorld ≤ 0
    ∧ StudyService.enforceLimit false "guest" 0 emptyWorld = emptyWorld :=
  ⟨by decide, (c3_enforceLimit_idempotent false "guest" 0 emptyWorld).2 (by decide)⟩

/-- **C5, counterexample.** The claim says `remove` always shrinks the
stored count by exactly one; removing an id that matches no stored record
(here `local-2` from a store holding only `local-1`) removes nothing, so
the count stays 1 instead of dropping to 0. -/
theorem c5_remove_counterexample :
    (storedLocal (StudyService.remove false "guest" "local-2" oneStudyWorld)).length
      ≠ (storedLocal oneStudyWorld).length - 1 := by
  decide

/-- **C5, amended.** `remove` deletes exactly the stored records whose id
matches the given id — all of them and nothing else — in whichever
backend the call routes to; the stored count accordingly drops by the
number of matching records (so by exactly one when exactly one record
matches, and by nothing when none does). -/
theorem c5_remove_removes_matches (cfg : Bool) (uid id : String) (w : World) :
    ((cfg && !(jsStartsWith id "local-") && uid != "guest") = false →
      storedLocal (StudyService.remove cfg uid id w)
          = (storedLocal w).filter (fun s => !(s.id == some id))
        ∧ (storedLocal (StudyService.remove cfg uid id w)).length
          = (storedLocal w).length - (storedLocal w).countP (fun s => s.id == some id))
    ∧ ((cfg && !(jsStartsWith id "local-") && uid != "guest") = true →
      storedRemote (StudyService.remove cfg uid id w) uid
          = (storedRemote w uid).filter (fun d => !(d.id == id))
        ∧ (storedRemote (StudyService.remove cfg uid id w) uid).length
          = (storedRemote w uid).length - (storedRemote w uid).countP (fun d => d.id == id)) := by
  constructor
  · intro hroute
    have h1 : storedLocal (StudyService.remove cfg uid id w)
        = (storedLocal w).filter (fun s => !(s.id == some id)) := by
      unfold StudyService.remove storedLocal
      simp only [hroute, Bool.false_eq_true, if_false]
    exact ⟨h1, by rw [h1]; exact length_filter_bnot_eq _ _⟩
  · intro hroute
    have h1 : storedRemote (StudyService.remove cfg uid id w) uid
        = (storedRemote w uid).filter (fun d => !(d.id == id)) := by
      unfold StudyService.remove storedRemote
      simp only [hroute, if_true]
      exact RemoteStore.setHistory_self _ _ _
    exact ⟨h1, by rw [h1]; exact length_filter_bnot_eq _ _⟩

/-- Witness for the amended C5 at a concrete input: removing `local-1`
from the one-study store routes locally and empties it (one matching
record, count 1 → 0). -/
theorem c5_remove_removes_matches_witness :
    (false && !(jsStartsWith "local-1" "local-") && "guest" != "guest") = false
    ∧ (storedLocal (StudyService.remove false "guest" "local-1" oneStudyWorld)
          = (storedLocal oneStudyWorld).filter (fun s => !(s.id == some "local-1"))
        ∧ (storedLocal (StudyService.remove false "guest" "local-1" oneStudyWorld)).length
          = (storedLocal oneStudyWorld).length
            - (storedLocal oneStudyWorld).countP (fun s => s.id == some "local-1")) :=
  ⟨by decide, (c5_remove_removes_matches false "guest" "local-1" oneStudyWorld).1 (by decide)⟩

/-- **C9.** In the local backend, `update` with an id matching no stored
record is a silent no-op: it completes (the model is a total function —
the source writes nothing when `findIndex` returns `-1`) and the world,
including the stored study list, is exactly unchanged. -/
theorem c9_update_unmatched_noop (cfg : Bool) (uid id : String) (p : StudyPatch) (w : World)
    (hroute : (cfg && !(jsStartsWith id "local-") && uid != "guest") = false)
    (habsent : ∀ s ∈ storedLocal w, ¬ s.id = some id) :
    StudyService.update cfg uid id p w = w := by
  unfold StudyService.update
  simp only [hroute, Bool.false_eq_true, if_false]
  have hfind : w.localStore.ssStudies.find? (fun s => s.id == some id) = none := by
    refine List.find?_eq_none.mpr ?_
    intro s hs h
    exact habsent s hs (beq_iff_eq.mp h)
  simp [hfind]

/-- Witness for C9 at a concrete input: patching id `local-9`, absent from
the one-study store, leaves the world unchanged. -/
theorem c9_update_unmatched_noop_witness :
    (false && !(jsStartsWith "local-9" "local-") && "guest" != "guest") = false
    ∧ (∀ s ∈ storedLocal oneStudyWorld, ¬ s.id = some "local-9")
    ∧ StudyService.update false "guest" "local-9" { userNotes := some "n" } oneStudyWorld
      = oneStudyWorld :=
  ⟨by decide, by decide,
    c9_update_unmatched_noop false "guest" "local-9" { userNotes := some "n" } oneStudyWorld
      (by decide) (by decide)⟩

/-- **C10.** In the local configuration, `save` appends exactly one new
record — the argument study with the freshly minted `local-` id attached —
and every previously stored record stays present, unchanged and in its
original position: the stored list after `save` is the old list followed
by the new record, and the minted id is returned. -/
theorem c10_local_save_appends (cfg : Bool) (uid : String) (study : SavedStudy)
    (fid : String) (ss nm : Int) (w : World)
    (hroute : (cfg && uid != "guest") = false) :
    storedLocal (StudyService.save cfg uid study fid ss nm w).1
      = storedLocal w ++ [{ study with id := some ("local-" ++ toString nm) }]
    ∧ (StudyService.save cfg uid study fid ss nm w).2 = "local-" ++ toString nm := by
  constructor
  · unfold StudyService.save storedLocal
    simp only [hroute, Bool.false_eq_true, if_false]
  · unfold StudyService.save
    simp only [hroute, Bool.false_eq_true, if_false]

/-- Witness for C10 at a concrete input: a guest save into the one-study
store appends `local-5` after the existing record. -/
theorem c10_local_save_appends_witness :
    (false && "guest" != "guest") = false
    ∧ (storedLocal (StudyService.save false "guest" (mkStudy none "guest" 7) "d1" 2 5 oneStudyWorld).1
        = storedLocal oneStudyWorld
          ++ [{ mkStudy none "guest" 7 with id := some ("local-" ++ toString (5 : Int)) }]
      ∧ (StudyService.save false "guest" (mkStudy none "guest" 7) "d1" 2 5 oneStudyWorld).2
        = "local-" ++ toString (5 : Int)) :=
  ⟨by decide, c10_local_save_appends false "guest" (mkStudy none "guest" 7) "d1" 2 5
    oneStudyWorld (by decide)⟩

/-- **C1.** After `save` followed by `enforceLimit` with cap `N`, the
stored count for the identity is at most `N`, and the retained records
are exactly (up to permutation) the first `N` of the post-`save` store
enumerated newest-first — in the local backend, the list sorted by
`createdAt` descending and truncated to `N`; in the remote backend, the
newest-first query truncated to `N` (remote document ids, which Firestore
assigns uniquely per collection, are assumed distinct). -/
theorem c1_save_then_enforceLimit_cap (cfg : Bool) (uid : String) (study : SavedStudy)
    (fid : String) (ss nm : Int) (N : Nat) (w : World) :
    ((cfg && uid != "guest") = false →
      storedCount cfg uid
          (StudyService.enforceLimit cfg uid N
            (StudyService.save cfg uid study fid ss nm w).1) ≤ N
      ∧ (storedLocal (StudyService.enforceLimit cfg uid N
            (StudyService.save cfg uid study fid ss nm w).1)).Perm
          ((StudyService.sortLocalDesc
            (storedLocal (StudyService.save cfg uid study fid ss nm w).1)).take N))
    ∧ ((cfg && uid != "guest") = true →
      ((storedRemote (StudyService.save cfg uid study fid ss nm w).1 uid).map
          HistoryDoc.id).Nodup →
      storedCount cfg uid
          (StudyService.enforceLimit cfg uid N
            (StudyService.save cfg uid study fid ss nm w).1) ≤ N
      ∧ (storedRemote (StudyService.enforceLimit cfg uid N
            (StudyService.save cfg uid study fid ss nm w).1) uid).Perm
          ((StudyService.firestoreOrder
            (storedRemote (StudyService.save cfg uid study fid ss nm w).1 uid)).take N)) := by
  constructor
  · intro hroute
    exact ⟨enforceLimit_count_le cfg uid N _, enforceLimit_local_perm cfg uid N _ hroute⟩
  · intro hroute hnd
    exact ⟨enforceLimit_count_le cfg uid N _, enforceLimit_remote_perm cfg uid N _ hroute hnd⟩

/-- Witness for C1 at a concrete input: a guest save into the one-study
store followed by `enforceLimit 1` leaves at most one study, the
newest-first head of the two stored. -/
theorem c1_save_then_enforceLimit_cap_witness :
    (false && "guest" != "guest") = false
    ∧ (storedCount false "guest"
          (StudyService.enforceLimit false "guest" 1
            (StudyService.save false "guest" (mkStudy none "guest" 7) "d1" 2 5 oneStudyWorld).1) ≤ 1
      ∧ (storedLocal (StudyService.enforceLimit false "guest" 1
            (StudyService.save false "guest" (mkStudy none "guest" 7) "d1" 2 5 oneStudyWorld).1)).Perm
          ((StudyService.sortLocalDesc
            (storedLocal
              (StudyService.save false "guest" (mkStudy none "guest" 7) "d1" 2 5
                oneStudyWorld).1)).take 1)) :=
  ⟨by decide,
    (c1_save_then_enforceLimit_cap false "guest" (mkStudy none "guest" 7) "d1" 2 5 1
      oneStudyWorld).1 (by decide)⟩

/-- **C6.** `remove` followed by `getById` with the same identity and id
yields absence (`none`).  Both operations are total functions of the
model — a missing id is reported as the value `none`, never an
exception.  The hypothesis is the reachability invariant of the local
store: every locally stored record carries a `local-`-prefixed id (local
`save` only ever mints such ids). -/
theorem c6_remove_then_getById_absent (cfg : Bool) (uid id : String) (w : World)
    (hlocalIds : ∀ s ∈ storedLocal w, s.id.all (fun v => jsStartsWith v "local-") = true) :
    StudyService.getById cfg uid id (StudyService.remove cfg uid id w) = none := by
  by_cases hroute : (cfg && !(jsStartsWith id "local-") && uid != "guest") = true
  · have hpfx : jsStartsWith id "local-" = false := by
      have h1 := (Bool.and_eq_true _ _).mp hroute
      have h2 := (Bool.and_eq_true _ _).mp h1.1
      simpa using h2.2
    have hremote : (StudyService.remove cfg uid id w).remoteStore.history uid
        = (w.remoteStore.history uid).filter (fun d => !(d.id == id)) := by
      unfold StudyService.remove
      simp only [hroute, if_true]
      exact RemoteStore.setHistory_self _ _ _
    have hlocalSame : (StudyService.remove cfg uid id w).localStore = w.localStore := by
      unfold StudyService.remove
      simp only [hroute, if_true]
    have hfindRemote : ((w.remoteStore.history uid).filter (fun d => !(d.id == id))).find?
        (fun d => d.id == id) = none := by
      refine List.find?_eq_none.mpr ?_
      intro d hd
      have := (List.mem_filter.mp hd).2
      simp only [Bool.not_eq_true'] at this
      simp [this]
    have hfindLocal : w.localStore.ssStudies.find? (fun s => s.id == some id) = none := by
      refine List.find?_eq_none.mpr ?_
      intro s hs h
      have hid : s.id = some id := beq_iff_eq.mp h
      have := hlocalIds s hs
      rw [hid] at this
      simp only [Option.all_some] at this
      rw [this] at hpfx
      exact Bool.true_eq_false.mp hpfx
    unfold StudyService.getById
    simp only [hroute, if_true, hlocalSame]
    rw [hremote, hfindRemote]
    exact hfindLocal
  · have hroute' : (cfg && !(jsStartsWith id "local-") && uid != "guest") = false :=
      Bool.not_eq_true _ ▸ eq_false_of_ne_true hroute
    have hlocal : (StudyService.remove cfg uid id w).localStore.ssStudies
        = w.localStore.ssStudies.filter (fun s => !(s.id == some id)) := by
      unfold StudyService.remove
      simp only [hroute', Bool.false_eq_true, if_false]
    have hfind : (w.localStore.ssStudies.filter (fun s => !(s.id == some id))).find?
        (fun s => s.id == some id) = none := by
      refine List.find?_eq_none.mpr ?_
      intro s hs
      have := (List.mem_filter.mp hs).2
      simp only [Bool.not_eq_true'] at this
      simp [this]
    unfold StudyService.getById
    simp only [hroute', Bool.false_eq_true, if_false, hlocal, hfind]

/-- Witness for C6 at a concrete input: removing the only stored study and
fetching it again yields `none`. -/
theorem c6_remove_then_getById_absent_witness :
    (∀ s ∈ storedLocal oneStudyWorld, s.id.all (fun v => jsStartsWith v "local-") = true)
    ∧ StudyService.getById false "guest" "local-1"
        (StudyService.remove false "guest" "local-1" oneStudyWorld) = none :=
  ⟨by decide,
    c6_remove_then_getById_absent false "guest" "local-1" oneStudyWorld (by decide)⟩

/-- **C4, counterexample.** In the remote configuration the round trip is
not the identity: `save` discards the study's `createdAt` in favour of
`serverTimestamp()`, so `getById` with the returned id yields a record
whose `createdAt` is the server seconds times 1000 (here `2000`), not the
saved study's `createdAt` (here `1`); the claim's equality fails. -/
theorem c4_roundtrip_counterexample :
    StudyService.getById true "u1"
        (StudyService.save true "u1" (mkStudy none "u1" 1) "d1" 2 1 emptyWorld).2
        (StudyService.save true "u1" (mkStudy none "u1" 1) "d1" 2 1 emptyWorld).1
      ≠ some { mkStudy none "u1" 1 with id := some "d1" } := by
  decide

/-- **C4, amended.** Round trip up to the backend-assigned creation time:
in the local configuration, `getById` with the id returned by `save`
yields exactly the saved study with that id attached (provided the minted
id is fresh for the stored list).  In the remote configuration — for a
study saved without a preexisting id, a Firestore-assigned id fresh for
the collection and not carrying the `local-` prefix, and a (positive)
server timestamp — `getById` yields the saved study with the returned id
attached and `createdAt` replaced by the server-assigned timestamp in
milliseconds. -/
theorem c4_roundtrip_amended (cfg : Bool) (uid : String) (study : SavedStudy)
    (fid : String) (ss nm : Int) (w : World) :
    ((cfg && uid != "guest") = false →
      (∀ s ∈ storedLocal w, ¬ s.id = some ("local-" ++ toString nm)) →
      StudyService.getById cfg uid (StudyService.save cfg uid study fid ss nm w).2
          (StudyService.save cfg uid study fid ss nm w).1
        = some { study with id := some ("local-" ++ toString nm) })
    ∧ ((cfg && uid != "guest") = true →
      jsStartsWith fid "local-" = false →
      (∀ d ∈ storedRemote w uid, ¬ d.id = fid) →
      study.id = none →
      0 < ss →
      StudyService.getById cfg uid (StudyService.save cfg uid study fid ss nm w).2
          (StudyService.save cfg uid study fid ss nm w).1
        = some { study with id := some fid, createdAt := ss * 1000 }) := by
  constructor
  · intro hroute hfresh
    have hsave2 : (StudyService.save cfg uid study fid ss nm w).2
        = "local-" ++ toString nm := by
      unfold StudyService.save
      simp only [hroute, Bool.false_eq_true, if_false]
    have hsave1 : (StudyService.save cfg uid study fid ss nm w).1.localStore.ssStudies
        = w.localStore.ssStudies
          ++ [{ study with id := some ("local-" ++ toString nm) }] := by
      unfold StudyService.save
      simp only [hroute, Bool.false_eq_true, if_false]
    have hpfx : jsStartsWith ("local-" ++ toString nm) "local-" = true :=
      jsStartsWith_append _ _
    have hguard : (cfg && !(jsStartsWith ("local-" ++ toString nm) "local-")
        && uid != "guest") = false := by
      simp [hpfx]
    have hfind : (w.localStore.ssStudies
          ++ [{ study with id := some ("local-" ++ toString nm) }]).find?
        (fun s => s.id == some ("local-" ++ toString nm))
        = some { study with id := some ("local-" ++ toString nm) } := by
      rw [List.find?_append]
      have h1 : w.localStore.ssStudies.find?
          (fun s => s.id == some ("local-" ++ toString nm)) = none := by
        refine List.find?_eq_none.mpr ?_
        intro s hs h
        exact hfresh s hs (beq_iff_eq.mp h)
      rw [h1]
      simp
    unfold StudyService.getById
    rw [hsave2]
    simp only [hguard, Bool.false_eq_true, if_false]
    rw [hsave1]
    exact hfind
  · intro hroute hnotlocal hfresh hid hss
    have hsave2 : (StudyService.save cfg uid study fid ss nm w).2 = fid := by
      unfold StudyService.save
      simp only [hroute, if_true]
    have hsave1 : (StudyService.save cfg uid study fid ss nm w).1.remoteStore.history uid
        = w.remoteStore.history uid
          ++ [{ id := fid, dataId := study.id, userId := study.userId
                reference := study.reference, translation := study.translation
                createdAtSeconds := ss, modelMetadata := study.modelMetadata
                analysis := study.analysis, userNotes := study.userNotes
                tags := study.tags : HistoryDoc }] := by
      unfold StudyService.save
      simp only [hroute, if_true]
      exact RemoteStore.setHistory_self _ _ _
    have hcfg : cfg = true := ((Bool.and_eq_true _ _).mp hroute).1
    have hguest : (uid != "guest") = true := ((Bool.and_eq_true _ _).mp hroute).2
    have hguard : (cfg && !(jsStartsWith fid "local-") && uid != "guest") = true := by
      simp [hcfg, hguest, hnotlocal]
    have hfind : (w.remoteStore.history uid
          ++ [{ id := fid, dataId := study.id, userId := study.userId
                reference := study.reference, translation := study.translation
                createdAtSeconds := ss, modelMetadata := study.modelMetadata
                analysis := study.analysis, userNotes := study.userNotes
                tags := study.tags : HistoryDoc }]).find? (fun d => d.id == fid)
        = some { id := fid, dataId := study.id, userId := study.userId
                 reference := study.reference, translation := study.translation
                 createdAtSeconds := ss, modelMetadata := study.modelMetadata
                 analysis := study.analysis, userNotes := study.userNotes
                 tags := study.tags : HistoryDoc } := by
      rw [List.find?_append]
      have h1 : (w.remoteStore.history uid).find? (fun d => d.id == fid) = none := by
        refine List.find?_eq_none.mpr ?_
        intro d hd h
        exact hfresh d hd (beq_iff_eq.mp h)
      rw [h1]
      simp
    unfold StudyService.getById
    rw [hsave2]
    simp only [hguard, if_true]
    rw [hsave1, hfind]
    unfold docToSavedStudy
    rw [hid]
    rfl

/-- Witness for the amended C4 at a concrete input (local configuration):
a guest save into the one-study store followed by `getById` with the
returned id gives back the study with its minted `local-5` id. -/
theorem c4_roundtrip_amended_witness :
    (false && "guest" != "guest") = false
    ∧ (∀ s ∈ storedLocal oneStudyWorld, ¬ s.id = some ("local-" ++ toString (5 : Int)))
    ∧ StudyService.getById false "guest"
        (StudyService.save false "guest" (mkStudy none "guest" 7) "d1" 2 5 oneStudyWorld).2
        (StudyService.save false "guest" (mkStudy none "guest" 7) "d1" 2 5 oneStudyWorld).1
      = some { mkStudy none "guest" 7 with id := some ("local-" ++ toString (5 : Int)) } :=
  ⟨by decide, by decide,
    (c4_roundtrip_amended false "guest" (mkStudy none "guest" 7) "d1" 2 5 oneStudyWorld).1
      (by decide) (by decide)⟩

/-- One tracker operation never resets the trial flag. -/
theorem hasUsedTrial_applyTrialOp (ls : LocalStore) (op : TrialOp)
    (h : GuestTrialService.hasUsedTrial ls = true) :
    GuestTrialService.hasUsedTrial (applyTrialOp ls op) = true := by
  cases op
  all_goals
    simp only [applyTrialOp, GuestTrialService.hasUsedTrial, GuestTrialService.markTrialUsed,
      GuestTrialService.setTrialStudyId] at h ⊢
  all_goals simp_all

/-- The trial flag survives any sequence of tracker operations. -/
theorem hasUsedTrial_applyTrialOps (ops : List TrialOp) (ls : LocalStore)
    (h : GuestTrialService.hasUsedTrial ls = true) :
    GuestTrialService.hasUsedTrial (applyTrialOps ops ls) = true := by
  induction ops generalizing ls with
  | nil => exact h
  | cons op ops ih => exact ih _ (hasUsedTrial_applyTrialOp ls op h)

/-- **C7.** (1) Once `markTrialUsed` has run, `hasUsedTrial` stays `true`
after any subsequent sequence of tracker operations — no tracker
operation resets the flag.  (2) In the generation flow, an unauthenticated
user whose trial flag is set is blocked before `generateStudy` is ever
consulted: for a non-empty reference, `handleAnalyze` returns the
sign-in-modal outcome with the world unchanged, uniformly in the would-be
generation result. -/
theorem c7_trial_monotone_and_gating :
    (∀ (ops : List TrialOp) (ls : LocalStore),
      GuestTrialService.hasUsedTrial
        (applyTrialOps ops (GuestTrialService.markTrialUsed ls)) = true)
    ∧ (∀ (cfg : Bool) (reference : String) (genResult : Except Unit StudyAnalysis)
        (fid : String) (ss nm : Int) (w : World),
      GuestTrialService.hasUsedTrial w.localStore = true →
      jsTrimChars reference.data ≠ [] →
      handleAnalyze cfg none reference genResult fid ss nm w
        = (w, AnalyzeOutcome.blockedSignInModal)) := by
  constructor
  · intro ops ls
    refine hasUsedTrial_applyTrialOps ops _ ?_
    simp [GuestTrialService.hasUsedTrial, GuestTrialService.markTrialUsed]
  · intro cfg reference genResult fid ss nm w hused href
    unfold handleAnalyze
    simp [href, hused]

/-- Witness for C7 at a concrete input: after marking the trial used,
setting the trial study id keeps the flag; the guest generation flow with
the flag set is blocked with the world unchanged. -/
theorem c7_trial_monotone_and_gating_witness :
    GuestTrialService.hasUsedTrial
        (applyTrialOps [TrialOp.setStudyId "local-1", TrialOp.queryUsed]
          (GuestTrialService.markTrialUsed emptyLocal)) = true
    ∧ (GuestTrialService.hasUsedTrial
          (GuestTrialService.markTrialUsed emptyLocal) = true
      ∧ jsTrimChars ("John 3:16" : String).data ≠ []
      ∧ handleAnalyze false none "John 3:16" (Except.ok sampleAnalysis) "d1" 2 5
          ⟨GuestTrialService.markTrialUsed emptyLocal, emptyRemote⟩
        = (⟨GuestTrialService.markTrialUsed emptyLocal, emptyRemote⟩,
            AnalyzeOutcome.blockedSignInModal)) :=
  ⟨c7_trial_monotone_and_gating.1 [TrialOp.setStudyId "local-1", TrialOp.queryUsed] emptyLocal,
    by decide, by decide,
    c7_trial_monotone_and_gating.2 false "John 3:16" (Except.ok sampleAnalysis) "d1" 2 5
      ⟨GuestTrialService.markTrialUsed emptyLocal, emptyRemote⟩ (by decide) (by decide)⟩

/-- **C2, counterexample.** One user's failing sub-query aborts the whole
scan: with users `u1` (whose history read fails) and `u2` (who has one
study), `getAllStudies` returns the empty list — `u2`'s study is *not*
returned, contradicting the claimed per-user failure isolation. -/
theorem c2_admin_scan_counterexample :
    AdminService.getAllStudies true
        (Except.ok [⟨"u1", some "e1", some "n1"⟩, ⟨"u2", some "e2", some "n2"⟩])
        historyU1Fails
      = []
    ∧ historyU1Fails "u2" = Except.ok [docOfU2] := by
  constructor <;> rfl

/-- The sequential per-user loop escapes with the exception of the first
failing sub-query. -/
theorem getAllStudiesLoop_error (history : String → Except Unit (List HistoryDoc))
    (us : List UserProfileDoc) (u : UserProfileDoc) (hu : u ∈ us)
    (herr : history u.id = Except.error ()) :
    AdminService.getAllStudiesLoop history us = Except.error () := by
  induction us with
  | nil => cases hu
  | cons v rest ih =>
    rcases List.mem_cons.mp hu with hv | hrest
    · subst hv
      unfold AdminService.getAllStudiesLoop
      rw [herr]
      rfl
    · unfold AdminService.getAllStudiesLoop
      cases hv : history v.id with
      | error e => cases e; rfl
      | ok docs =>
        rw [ih hrest]
        rfl

/-- **C2, amended.** The admin scan isolates nothing: any failure — the
top-level user enumeration failing, or *any* listed user's per-user
sub-query failing — makes `getAllStudies` return the empty list, so the
studies of unaffected users are dropped too.  No error propagates to the
caller in either case (the function is total and list-valued: the single
`try`/`catch` maps every exception to `[]`). -/
theorem c2_admin_scan_amended (cfg : Bool) (users : Except Unit (List UserProfileDoc))
    (history : String → Except Unit (List HistoryDoc)) :
    (users = Except.error () → AdminService.getAllStudies cfg users history = [])
    ∧ (∀ us, users = Except.ok us →
      ∀ u ∈ us, history u.id = Except.error () →
      AdminService.getAllStudies cfg users history = []) := by
  constructor
  · intro herr
    unfold AdminService.getAllStudies
    cases cfg with
    | false => rfl
    | true => rw [herr]; rfl
  · intro us husers u hu herr
    unfold AdminService.getAllStudies
    cases cfg with
    | false => rfl
    | true =>
      rw [husers]
      have := getAllStudiesLoop_error history us u hu herr
      simp only [Bool.not_true, Bool.false_eq_true, if_false]
      rw [show (do
          let us' ← (Except.ok us : Except Unit (List UserProfileDoc))
          AdminService.getAllStudiesLoop history us' : Except Unit (List AdminRecordView))
        = AdminService.getAllStudiesLoop history us from rfl]
      rw [this]

/-- Witness for the amended C2 at a concrete input: with `u1` failing, the
scan yields `[]` even though `u2` has a study. -/
theorem c2_admin_scan_amended_witness :
    ((Except.ok [(⟨"u1", some "e1", some "n1"⟩ : UserProfileDoc),
        ⟨"u2", some "e2", some "n2"⟩] : Except Unit (List UserProfileDoc))
      = Except.ok [⟨"u1", some "e1", some "n1"⟩, ⟨"u2", some "e2", some "n2"⟩])
    ∧ (⟨"u1", some "e1", some "n1"⟩ : UserProfileDoc)
        ∈ [(⟨"u1", some "e1", some "n1"⟩ : UserProfileDoc), ⟨"u2", some "e2", some "n2"⟩]
    ∧ historyU1Fails "u1" = Except.error ()
    ∧ AdminService.getAllStudies true
        (Except.ok [⟨"u1", some "e1", some "n1"⟩, ⟨"u2", some "e2", some "n2"⟩])
        historyU1Fails = [] :=
  ⟨rfl, by decide, rfl,
    (c2_admin_scan_amended true
        (Except.ok [⟨"u1", some "e1", some "n1"⟩, ⟨"u2", some "e2", some "n2"⟩])
        historyU1Fails).2
      [⟨"u1", some "e1", some "n1"⟩, ⟨"u2", some "e2", some "n2"⟩] rfl
      ⟨"u1", some "e1", some "n1"⟩ (by decide) rfl⟩

/-! ### The fence-stripping scans, one step at a time

The two global regex replacements scan left to right over non-overlapping
matches; the lemmas below restate each recursive step of the two scans,
and then show that wrapping a text in markdown fences changes nothing up
to the final `trim()`. -/

theorem sjf_match_newline (r : List Char) :
    stripJsonFence (tick :: tick :: tick :: 'j' :: 's' :: 'o' :: 'n' :: '\n' :: r)
      = stripJsonFence r := by
  rw [stripJsonFence.eq_1, if_pos]
  exact ⟨rfl, rfl, rfl, rfl, rfl, rfl, rfl⟩

theorem sjf_match_other (r : List Char) (hr : r.head? ≠ some '\n') :
    stripJsonFence (tick :: tick :: tick :: 'j' :: 's' :: 'o' :: 'n' :: r)
      = stripJsonFence r := by
  match r with
  | [] =>
    rw [stripJsonFence.eq_2, if_pos]
    · rfl
    · exact ⟨rfl, rfl, rfl, rfl, rfl, rfl, rfl⟩
  | c :: r' =>
    have hc : c ≠ '\n' := by simpa using hr
    rw [stripJsonFence.eq_3 _ _ _ _ _ _ _ _ _ (fun h => hc h), if_pos]
    exact ⟨rfl, rfl, rfl, rfl, rfl, rfl, rfl⟩

theorem sjf_cons_step (c : Char) (l : List Char)
    (hnot : ¬ ([tick, tick, tick, 'j', 's', 'o', 'n'] <+: (c :: l))) :
    stripJsonFence (c :: l) = c :: stripJsonFence l := by
  match l with
  | c2 :: c3 :: c4 :: c5 :: c6 :: c7 :: rest =>
    have hcond : ¬ (c = tick ∧ c2 = tick ∧ c3 = tick ∧ c4 = 'j' ∧ c5 = 's'
        ∧ c6 = 'o' ∧ c7 = 'n') := by
      intro hc
      apply hnot
      obtain ⟨h1, h2, h3, h4, h5, h6, h7⟩ := hc
      subst h1; subst h2; subst h3; subst h4; subst h5; subst h6; subst h7
      exact ⟨rest, rfl⟩
    cases rest with
    | nil => rw [stripJsonFence.eq_2, if_neg hcond]
    | cons c8 r' =>
      by_cases hc8 : c8 = '\n'
      · subst hc8
        rw [stripJsonFence.eq_1, if_neg hcond]
      · rw [stripJsonFence.eq_3 _ _ _ _ _ _ _ _ _ (fun h => hc8 h), if_neg hcond]
  | [] => rfl
  | [c2] => rfl
  | [c2, c3] => rfl
  | [c2, c3, c4] => rfl
  | [c2, c3, c4, c5] => rfl
  | [c2, c3, c4, c5, c6] => rfl

/-- A newline-free pattern that is not a prefix of `X` cannot become one
after appending a newline-headed suffix: a spanning match would have to
put one of the pattern's characters on the newline. -/
theorem not_prefix_append_newline (pat X T : List Char) (hnl : '\n' ∉ pat)
    (h : ¬ pat <+: X) : ¬ pat <+: (X ++ '\n' :: T) := by
  intro hp
  by_cases hlen : pat.length ≤ X.length
  · apply h
    have he : pat = (X ++ '\n' :: T).take pat.length := List.prefix_iff_eq_take.mp hp
    rw [List.take_append_of_le_length hlen] at he
    exact he ▸ List.take_prefix pat.length X
  · push_neg at hlen
    apply hnl
    have he : pat = (X ++ '\n' :: T).take pat.length := List.prefix_iff_eq_take.mp hp
    have hidx : (X ++ '\n' :: T)[X.length]? = some '\n' := by
      rw [List.getElem?_append_right (le_refl _)]
      simp
    have hm : pat[X.length]? = some '\n' := by
      rw [he, List.getElem?_take]
      simp [hlen, hidx]
    exact List.getElem?_mem hm

/-- First replacement over a text followed by the closing fence `\n```:
unless the text itself ends in `` ```json `` (in which case the scan
would swallow the closing fence's newline as the match's optional
newline), the scan acts on the text alone and carries the closing fence
through unchanged. -/
theorem sjf_append_tail_aux : ∀ (n : Nat) (X : List Char), X.length ≤ n →
    ¬ ([tick, tick, tick, 'j', 's', 'o', 'n'] <:+ X) →
    stripJsonFence (X ++ '\n' :: [tick, tick, tick])
      = stripJsonFence X ++ '\n' :: [tick, tick, tick] := by
  intro n
  induction n with
  | zero =>
    intro X hlen _
    have hX : X = [] := List.eq_nil_of_length_eq_zero (Nat.le_zero.mp hlen)
    subst hX
    rfl
  | succ n ih =>
    intro X hlen h
    by_cases hpre : ([tick, tick, tick, 'j', 's', 'o', 'n'] : List Char) <+: X
    · obtain ⟨R, hR⟩ := hpre
      subst hR
      cases R with
      | nil =>
        exfalso
        apply h
        simp
      | cons r R' =>
        have hsufR : (r :: R') <:+ ([tick, tick, tick, 'j', 's', 'o', 'n'] ++ r :: R') :=
          ⟨[tick, tick, tick, 'j', 's', 'o', 'n'], rfl⟩
        by_cases hr : r = '\n'
        · subst hr
          have hlen' : R'.length ≤ n := by
            simp [List.length_append] at hlen
            omega
          have h' : ¬ ([tick, tick, tick, 'j', 's', 'o', 'n'] : List Char) <:+ R' := by
            intro hsuf
            exact h (hsuf.trans ((List.suffix_cons '\n' R').trans hsufR))
          have hstep := ih R' hlen' h'
          calc stripJsonFence (([tick, tick, tick, 'j', 's', 'o', 'n'] ++ '\n' :: R')
                ++ '\n' :: [tick, tick, tick])
              = stripJsonFence (tick :: tick :: tick :: 'j' :: 's' :: 'o' :: 'n' :: '\n'
                :: (R' ++ '\n' :: [tick, tick, tick])) := by simp
            _ = stripJsonFence (R' ++ '\n' :: [tick, tick, tick]) := sjf_match_newline _
            _ = stripJsonFence R' ++ '\n' :: [tick, tick, tick] := hstep
            _ = stripJsonFence ([tick, tick, tick, 'j', 's', 'o', 'n'] ++ '\n' :: R')
                ++ '\n' :: [tick, tick, tick] := by
                  rw [show ([tick, tick, tick, 'j', 's', 'o', 'n'] : List Char) ++ '\n' :: R'
                    = tick :: tick :: tick :: 'j' :: 's' :: 'o' :: 'n' :: '\n' :: R' by simp,
                    sjf_match_newline]
        · have hlen' : (r :: R').length ≤ n := by
            simp [List.length_append] at hlen ⊢
            omega
          have h' : ¬ ([tick, tick, tick, 'j', 's', 'o', 'n'] : List Char) <:+ (r :: R') := by
            intro hsuf
            exact h (hsuf.trans hsufR)
          have hstep := ih (r :: R') hlen' h'
          have hhead : ((r :: R') ++ '\n' :: [tick, tick, tick]).head? ≠ some '\n' := by
            simpa using hr
          have hhead2 : (r :: R').head? ≠ some '\n' := by
            simpa using hr
          calc stripJsonFence (([tick, tick, tick, 'j', 's', 'o', 'n'] ++ r :: R')
                ++ '\n' :: [tick, tick, tick])
              = stripJsonFence (tick :: tick :: tick :: 'j' :: 's' :: 'o' :: 'n'
                :: ((r :: R') ++ '\n' :: [tick, tick, tick])) := by simp
            _ = stripJsonFence ((r :: R') ++ '\n' :: [tick, tick, tick]) :=
                sjf_match_other _ hhead
            _ = stripJsonFence (r :: R') ++ '\n' :: [tick, tick, tick] := hstep
            _ = stripJsonFence ([tick, tick, tick, 'j', 's', 'o', 'n'] ++ r :: R')
                ++ '\n' :: [tick, tick, tick] := by
                  rw [show ([tick, tick, tick, 'j', 's', 'o', 'n'] : List Char) ++ r :: R'
                    = tick :: tick :: tick :: 'j' :: 's' :: 'o' :: 'n' :: r :: R' by simp,
                    sjf_match_other _ hhead2]
    · cases X with
      | nil => rfl
      | cons c X' =>
        have hnot' : ¬ ([tick, tick, tick, 'j', 's', 'o', 'n'] : List Char)
            <+: ((c :: X') ++ '\n' :: [tick, tick, tick]) :=
          not_prefix_append_newline _ _ _ (by decide) hpre
        have h' : ¬ ([tick, tick, tick, 'j', 's', 'o', 'n'] : List Char) <:+ X' := by
          intro hsuf
          exact h (hsuf.trans (List.suffix_cons c X'))
        have hlen' : X'.length ≤ n := by
          simp at hlen
          omega
        calc stripJsonFence ((c :: X') ++ '\n' :: [tick, tick, tick])
            = stripJsonFence (c :: (X' ++ '\n' :: [tick, tick, tick])) := by simp
          _ = c :: stripJsonFence (X' ++ '\n' :: [tick, tick, tick]) := by
              refine sjf_cons_step c _ ?_
              simpa using hnot'
          _ = c :: (stripJsonFence X' ++ '\n' :: [tick, tick, tick]) := by
              rw [ih X' hlen' h']
          _ = stripJsonFence (c :: X') ++ '\n' :: [tick, tick, tick] := by
              rw [sjf_cons_step c X' hpre]
              simp

theorem sjf_append_tail (X : List Char)
    (h : ¬ ([tick, tick, tick, 'j', 's', 'o', 'n'] <:+ X)) :
    stripJsonFence (X ++ '\n' :: [tick, tick, tick])
      = stripJsonFence X ++ '\n' :: [tick, tick, tick] :=
  sjf_append_tail_aux X.length X (le_refl _) h

theorem scf_match_newline (r : List Char) :
    stripCodeFence (tick :: tick :: tick :: '\n' :: r) = stripCodeFence r := by
  rw [stripCodeFence.eq_1, if_pos]
  exact ⟨rfl, rfl, rfl⟩

theorem scf_match_other (r : List Char) (hr : r.head? ≠ some '\n') :
    stripCodeFence (tick :: tick :: tick :: r) = stripCodeFence r := by
  match r with
  | [] =>
    rw [stripCodeFence.eq_2, if_pos]
    · rfl
    · exact ⟨rfl, rfl, rfl⟩
  | c :: r' =>
    have hc : c ≠ '\n' := by simpa using hr
    rw [stripCodeFence.eq_3 _ _ _ _ _ (fun h => hc h), if_pos]
    exact ⟨rfl, rfl, rfl⟩

theorem scf_cons_step (c : Char) (l : List Char)
    (hnot : ¬ ([tick, tick, tick] <+: (c :: l))) :
    stripCodeFence (c :: l) = c :: stripCodeFence l := by
  match l with
  | c2 :: c3 :: rest =>
    have hcond : ¬ (c = tick ∧ c2 = tick ∧ c3 = tick) := by
      intro hc
      apply hnot
      obtain ⟨h1, h2, h3⟩ := hc
      subst h1; subst h2; subst h3
      exact ⟨rest, rfl⟩
    cases rest with
    | nil => rw [stripCodeFence.eq_2, if_neg hcond]
    | cons c4 r' =>
      by_cases hc4 : c4 = '\n'
      · subst hc4
        rw [stripCodeFence.eq_1, if_neg hcond]
      · rw [stripCodeFence.eq_3 _ _ _ _ _ (fun h => hc4 h), if_neg hcond]
  | [] => rfl
  | [c2] => rfl

/-- Second replacement over a cleaned text followed by the closing fence:
the closing ``` is always consumed; the preceding newline either survives
(to be trimmed later) or is swallowed as the optional newline of a match
ending exactly at the text's end. -/
theorem scf_append_tail_aux : ∀ (n : Nat) (S : List Char), S.length ≤ n →
    stripCodeFence (S ++ '\n' :: [tick, tick, tick]) = stripCodeFence S
    ∨ stripCodeFence (S ++ '\n' :: [tick, tick, tick]) = stripCodeFence S ++ ['\n'] := by
  intro n
  induction n with
  | zero =>
    intro S hlen
    have hS : S = [] := List.eq_nil_of_length_eq_zero (Nat.le_zero.mp hlen)
    subst hS
    right
    decide
  | succ n ih =>
    intro S hlen
    by_cases hpre : ([tick, tick, tick] : List Char) <+: S
    · obtain ⟨R, hR⟩ := hpre
      subst hR
      cases R with
      | nil =>
        left
        decide
      | cons r R' =>
        have hform : ([tick, tick, tick] : List Char) ++ r :: R'
            = tick :: tick :: tick :: r :: R' := by simp
        by_cases hr : r = '\n'
        · subst hr
          have hlen' : R'.length ≤ n := by
            simp [List.length_append] at hlen
            omega
          have hL : stripCodeFence (([tick, tick, tick] ++ '\n' :: R')
              ++ '\n' :: [tick, tick, tick])
              = stripCodeFence (R' ++ '\n' :: [tick, tick, tick]) := by
            rw [show ([tick, tick, tick] : List Char) ++ '\n' :: R'
                ++ '\n' :: [tick, tick, tick]
              = tick :: tick :: tick :: '\n' :: (R' ++ '\n' :: [tick, tick, tick]) by simp]
            exact scf_match_newline _
          have hRrw : stripCodeFence ([tick, tick, tick] ++ '\n' :: R')
              = stripCodeFence R' := by
            rw [show ([tick, tick, tick] : List Char) ++ '\n' :: R'
              = tick :: tick :: tick :: '\n' :: R' by simp]
            exact scf_match_newline _
          rcases ih R' hlen' with hc | hc
          · left
            rw [hL, hc, hRrw]
          · right
            rw [hL, hc, hRrw]
        · have hlen' : (r :: R').length ≤ n := by
            simp [List.length_append] at hlen ⊢
            omega
          have hhead : ((r :: R') ++ '\n' :: [tick, tick, tick]).head? ≠ some '\n' := by
            simpa using hr
          have hhead2 : (r :: R').head? ≠ some '\n' := by
            simpa using hr
          have hL : stripCodeFence (([tick, tick, tick] ++ r :: R')
              ++ '\n' :: [tick, tick, tick])
              = stripCodeFence ((r :: R') ++ '\n' :: [tick, tick, tick]) := by
            rw [show ([tick, tick, tick] : List Char) ++ r :: R'
                ++ '\n' :: [tick, tick, tick]
              = tick :: tick :: tick :: ((r :: R') ++ '\n' :: [tick, tick, tick]) by simp]
            exact scf_match_other _ hhead
          have hRrw : stripCodeFence ([tick, tick, tick] ++ r :: R')
              = stripCodeFence (r :: R') := by
            rw [hform]
            exact scf_match_other _ hhead2
          rcases ih (r :: R') hlen' with hc | hc
          · left
            rw [hL, hc, hRrw]
          · right
            rw [hL, hc, hRrw]
    · cases S with
      | nil =>
        right
        decide
      | cons c S' =>
        have hnot' : ¬ ([tick, tick, tick] : List Char)
            <+: ((c :: S') ++ '\n' :: [tick, tick, tick]) :=
          not_prefix_append_newline _ _ _ (by decide) hpre
        have hlen' : S'.length ≤ n := by
          simp at hlen
          omega
        have hL : stripCodeFence ((c :: S') ++ '\n' :: [tick, tick, tick])
            = c :: stripCodeFence (S' ++ '\n' :: [tick, tick, tick]) := by
          rw [show (c :: S') ++ '\n' :: [tick, tick, tick]
            = c :: (S' ++ '\n' :: [tick, tick, tick]) by simp]
          refine scf_cons_step c _ ?_
          simpa using hnot'
        have hRrw : stripCodeFence (c :: S') = c :: stripCodeFence S' :=
          scf_cons_step c S' hpre
        rcases ih S' hlen' with hc | hc
        · left
          rw [hL, hc, hRrw]
        · right
          rw [hL, hc, hRrw]
          simp

theorem scf_append_tail (S : List Char) :
    stripCodeFence (S ++ '\n' :: [tick, tick, tick]) = stripCodeFence S
    ∨ stripCodeFence (S ++ '\n' :: [tick, tick, tick]) = stripCodeFence S ++ ['\n'] :=
  scf_append_tail_aux S.length S (le_refl _)

/-- `trim()` absorbs a trailing newline. -/
theorem jsTrim_append_newline (T : List Char) :
    jsTrimChars (T ++ ['\n']) = jsTrimChars T := by
  unfold jsTrimChars
  rw [List.dropWhile_append]
  by_cases hD : (T.dropWhile isJsWhitespace).isEmpty
  · have hnil : T.dropWhile isJsWhitespace = [] := by
      simpa [List.isEmpty_iff] using hD
    simp [hD, hnil]
    decide
  · have hne : (T.dropWhile isJsWhitespace).isEmpty = false :=
      eq_false_of_ne_true hD
    simp only [hne, Bool.false_eq_true, if_false]
    rw [List.reverse_append]
    simp [List.dropWhile_cons, isJsWhitespace]

/-- Wrapping any text that does not itself end in `` ```json `` inside
markdown code fences leaves the cleaned text unchanged. -/
theorem cleanGeminiText_wrap (X : List Char)
    (h : ¬ ([tick, tick, tick, 'j', 's', 'o', 'n'] <:+ X)) :
    cleanGeminiText (wrapInJsonFence X) = cleanGeminiText X := by
  unfold cleanGeminiText wrapInJsonFence
  rw [sjf_match_newline, sjf_append_tail X h]
  rcases scf_append_tail (stripJsonFence X) with hc | hc
  · rw [hc]
  · rw [hc, jsTrim_append_newline]

/-- **C8.** (1) For every response text `X` that does not end in
`` ```json `` — in particular for every valid-JSON text, since a JSON
value never ends in the letter `n` (objects, arrays and strings end in a
closing delimiter, numbers in a digit, and `null`/`true`/`false` in
`l`/`e`, with only whitespace allowed after) — wrapping `X` in markdown
code fences and then cleaning-and-parsing gives the same result as
cleaning-and-parsing `X` itself, for any parse function (so in particular
for the host's `JSON.parse`): the cleaned texts are equal outright.
(2) A response whose cleaned text does not parse makes `generateStudy`
return the fixed generation-failure error to its caller — the parse
exception is caught and never escapes unhandled. -/
theorem c8_fence_wrap_and_parse_failure :
    (∀ (parseJson : List Char → Option StudyAnalysis) (X : List Char),
      ¬ ([tick, tick, tick, 'j', 's', 'o', 'n'] <:+ X) →
      parseJson (cleanGeminiText (wrapInJsonFence X))
        = parseJson (cleanGeminiText X))
    ∧ (∀ (parseJson : List Char → Option StudyAnalysis) (rt : Option (List Char)),
      parseJson (cleanGeminiText (responseTextOrDefault rt)) = none →
      generateStudyResult parseJson rt = Except.error GenError.parseFailure) := by
  constructor
  · intro parseJson X h
    rw [cleanGeminiText_wrap X h]
  · intro parseJson rt h
    unfold generateStudyResult
    rw [h]

/-- Witness for C8 at concrete inputs: a small JSON array text, wrapped
and unwrapped, cleans-and-parses identically; a non-JSON response yields
the generation-failure error (with the parse stage that rejects it). -/
theorem c8_fence_wrap_and_parse_failure_witness :
    (¬ ([tick, tick, tick, 'j', 's', 'o', 'n'] <:+ ("[1, 2]" : String).data))
    ∧ (fun _ : List Char => (none : Option StudyAnalysis))
        (cleanGeminiText (wrapInJsonFence ("[1, 2]" : String).data))
      = (fun _ : List Char => (none : Option StudyAnalysis))
        (cleanGeminiText ("[1, 2]" : String).data)
    ∧ (fun _ : List Char => (none : Option StudyAnalysis))
        (cleanGeminiText (responseTextOrDefault (some ("not json" : String).data)))
      = none
    ∧ generateStudyResult (fun _ => none) (some ("not json" : String).data)
      = Except.error GenError.parseFailure :=
  ⟨by decide,
    c8_fence_wrap_and_parse_failure.1 (fun _ => none) ("[1, 2]" : String).data (by decide),
    rfl,
    c8_fence_wrap_and_parse_failure.2 (fun _ => none) (some ("not json" : String).data) rfl⟩

end ScriptureScholar
